import Mathlib

/-!
Shallow embedding of `src/scripts/make_phyloseq_files.py`.

The script aggregates per-sample tab-delimited classification outputs into
an OTU abundance table (`otu_dict`, finalized as a dense grid over all
identifiers × all registered sample names) and a taxonomy table
(`tax_dict`). We embed the aggregation loop of `main` directly:

* a parsed input file is an `InputFile` (its derived sample name, whether
  `pd.read_csv` succeeded, its header columns, its rows);
* a `Row` carries the `Target_ID` value, the `estimated counts` value and
  the seven taxonomy-rank values (abundance is modelled as an exact
  integer; the script's numeric parsing is generic I/O outside the core);
* Python `dict`s (insertion-ordered, in-place update) are modelled as
  association lists with `lookupD`/`updateD`;
* `df.groupby("Target_ID")` sorts the group keys (pandas default
  `sort=True`) and, per group, `.sum()` adds the counts and `.first()`
  takes the first row in original file order; we model the sorted key
  list with `groupKeys` and the per-group aggregates with `sumCounts`
  and `taxRecordOf`;
* console prints on skip/warning branches are modelled as a `log` of
  `LogMsg` values, and the top-level "no files / write both tables"
  behaviour as `run` returning a `RunResult`.
-/

namespace Phyloseq

/-- One data row of a parsed input file: the `Target_ID` cell, the
`estimated counts` cell, and the cells of the seven taxonomy columns.
When a taxonomy column is absent from the file's header the script never
reads the corresponding cells, so their values are irrelevant there. -/
structure Row where
  target_id : String
  counts : Int
  species : String
  genus : String
  family : String
  order : String
  «class» : String
  phylum : String
  superkingdom : String
deriving DecidableEq

/-- One input file as the script sees it after `pd.read_csv`: the sample
name derived from the file name (basename, extension stripped), whether
reading succeeded, the header columns, and the parsed rows. -/
structure InputFile where
  sample_name : String
  parse_ok : Bool
  columns : List String
  rows : List Row
deriving DecidableEq

/-- The four per-file diagnostic prints of the script. -/
inductive LogMsg where
  | readError (sample : String)
  | missingTargetId (sample : String)
  | missingCounts (sample : String)
  | missingTaxCols (sample : String)
deriving DecidableEq

/-- The mutable state of `main`'s aggregation loop: `otu_dict`
(Target_ID → sample → summed counts), `tax_dict` (Target_ID → renamed
taxonomy record), `sample_names` (registration order), and the console
log. -/
structure AggState where
  otu_dict : List (String × List (String × Int))
  tax_dict : List (String × List (String × String))
  sample_names : List String
  log : List LogMsg
deriving DecidableEq

/-- `required_tax_cols` of the script. -/
def required_tax_cols : List String :=
  ["species", "genus", "family", "order", "class", "phylum", "superkingdom"]

/-- `desired_columns` of the script, in Python-dict insertion order:
output column name paired with the input column providing it. -/
def desired_columns : List (String × String) :=
  [("Kingdom", "superkingdom"), ("Phylum", "phylum"), ("Class", "class"),
   ("Order", "order"), ("Family", "family"), ("Genus", "genus"), ("Species", "species")]

/-- The cell of row `r` in the named input taxonomy column. -/
def rankValue (r : Row) : String → String
  | "species" => r.species
  | "genus" => r.genus
  | "family" => r.family
  | "order" => r.order
  | "class" => r.«class»
  | "phylum" => r.phylum
  | "superkingdom" => r.superkingdom
  | _ => ""

/-- Association-list lookup, first match wins (Python `d[k]` /
`k in d`). -/
def lookupD {α : Type} : List (String × α) → String → Option α
  | [], _ => none
  | p :: rest, k => if p.1 == k then some p.2 else lookupD rest k

/-- Python `d[k] = v` on an insertion-ordered dict: update in place if
the key exists, else append at the end. -/
def updateD {α : Type} (d : List (String × α)) (k : String) (v : α) : List (String × α) :=
  if d.any (fun p => p.1 == k) then d.map (fun p => if p.1 == k then (k, v) else p)
  else d ++ [(k, v)]

/-- Lexicographic comparison of strings as character lists (the order
pandas sorts group keys by). -/
def charListLe : List Char → List Char → Bool
  | [], _ => true
  | _ :: _, [] => false
  | a :: as, b :: bs => if a < b then true else if b < a then false else charListLe as bs

/-- String comparison used to sort group keys. -/
def strLe (a b : String) : Bool := charListLe a.data b.data

/-- Insert into a sorted list of strings. -/
def insertSorted (a : String) : List String → List String
  | [] => [a]
  | b :: rest => if strLe a b then a :: b :: rest else b :: insertSorted a rest

/-- Insertion sort on strings (a stable sort; pandas sorts group keys). -/
def sortStrings : List String → List String
  | [] => []
  | a :: rest => insertSorted a (sortStrings rest)

/-- The identifiers occurring in a file, in row order with repetitions. -/
def fileIds (f : InputFile) : List String := f.rows.map Row.target_id

/-- The group keys of `df.groupby("Target_ID")`: the distinct
identifiers, sorted (pandas default `sort=True`). -/
def groupKeys (rows : List Row) : List String :=
  sortStrings ((rows.map Row.target_id).dedup)

/-- `df.groupby("Target_ID")["estimated counts"].sum()` for one group:
the sum of the counts of all rows of the file sharing the identifier. -/
def sumCounts (rows : List Row) (id : String) : Int :=
  ((rows.filter (fun r => r.target_id == id)).map Row.counts).sum

/-- `tax_info_new.loc[id].to_dict()`: the first row of the group (first
occurrence in file order) read through `desired_columns`, i.e. the seven
output columns in fixed order with values from the mapped input
columns. -/
def taxRecordOf (rows : List Row) (id : String) : List (String × String) :=
  match rows.find? (fun r => r.target_id == id) with
  | some r => desired_columns.map (fun p => (p.1, rankValue r p.2))
  | none => []

/-- `missing = [col for col in required_tax_cols if col not in df.columns]`. -/
def missingTax (f : InputFile) : List String :=
  required_tax_cols.filter (fun c => !(f.columns.contains c))

/-- The body of `for _, row in grouped.iterrows()` for one group key:
store the file's summed counts at `otu_dict[id][sample_name]`, then
record taxonomy only if `id` has no `tax_dict` entry yet and appears in
this file's taxonomy index. -/
def updateForId (f : InputFile) (st : AggState) (id : String) : AggState :=
  let inner := (lookupD st.otu_dict id).getD []
  let count_val := sumCounts f.rows id
  let st1 := { st with otu_dict := updateD st.otu_dict id (updateD inner f.sample_name count_val) }
  if (lookupD st1.tax_dict id).isNone && (groupKeys f.rows).contains id then
    { st1 with tax_dict := st1.tax_dict ++ [(id, taxRecordOf f.rows id)] }
  else st1

/-- One iteration of the `for file in file_list` loop of `main`: the
read check, the `Target_ID` and `estimated counts` column checks (skip
with a log message), sample-name registration, the taxonomy-column
check (`continue` with a warning — note this skips the abundance loop
as well), then the per-group update loop. -/
def processFile (st : AggState) (f : InputFile) : AggState :=
  if !f.parse_ok then
    { st with log := st.log ++ [LogMsg.readError f.sample_name] }
  else if !(f.columns.contains "Target_ID") then
    { st with log := st.log ++ [LogMsg.missingTargetId f.sample_name] }
  else if !(f.columns.contains "estimated counts") then
    { st with log := st.log ++ [LogMsg.missingCounts f.sample_name] }
  else
    let st1 := { st with sample_names := st.sample_names ++ [f.sample_name] }
    if !(missingTax f).isEmpty then
      { st1 with log := st1.log ++ [LogMsg.missingTaxCols f.sample_name] }
    else
      (groupKeys f.rows).foldl (updateForId f) st1

/-- The empty initial state of `main`. -/
def initState : AggState := ⟨[], [], [], []⟩

/-- The whole aggregation loop of `main` over the discovered files, in
discovery order. -/
def aggregate (files : List InputFile) : AggState :=
  files.foldl processFile initState

/-- Finalization of the OTU table:
`pd.DataFrame.from_dict(otu_dict).reindex(columns=sample_names).fillna(0)` —
one row per `otu_dict` key, one column per registered sample name in
registration order, absent cells filled with 0. -/
def otuTable (st : AggState) : List (String × List (String × Int)) :=
  st.otu_dict.map (fun p => (p.1, st.sample_names.map (fun s => (s, (lookupD p.2 s).getD 0))))

/-- Finalization of the taxonomy table:
`pd.DataFrame.from_dict(tax_dict)` — the rows are exactly the `tax_dict`
entries. -/
def taxTable (st : AggState) : List (String × List (String × String)) := st.tax_dict

/-- Cell access in a finalized table: the row of the identifier, then
the column of the sample name. -/
def tableCell {α : Type} (t : List (String × List (String × α))) (id s : String) : Option α :=
  (lookupD t id).bind (fun row => lookupD row s)

/-- Outcome of a run: the early `return` after the "No files found"
print, or both finalized tables written out. -/
inductive RunResult where
  | noFiles
  | written (otu : List (String × List (String × Int))) (tax : List (String × List (String × String)))
deriving DecidableEq

/-- `main` after argument parsing: abort with a message when no file
matched, otherwise aggregate and write both tables. -/
def run (files : List InputFile) : RunResult :=
  if files.isEmpty then RunResult.noFiles
  else RunResult.written (otuTable (aggregate files)) (taxTable (aggregate files))

/-- The script's first three per-file checks (read succeeded,
`Target_ID` present, `estimated counts` present): exactly the files
passing them register a sample name. -/
def validAbund (f : InputFile) : Bool :=
  f.parse_ok && f.columns.contains "Target_ID" && f.columns.contains "estimated counts"

/-- All five per-file checks: a file reaches the aggregation loop iff
it passes the first three and misses no taxonomy column. -/
def validFull (f : InputFile) : Bool :=
  validAbund f && (missingTax f).isEmpty

/-- The files that write to cell (`id`, `s`) of the abundance table:
those reaching the aggregation loop, containing `id`, named `s`. -/
def contribs (files : List InputFile) (id s : String) : List InputFile :=
  files.filter (fun f => validFull f && (fileIds f).contains id && (f.sample_name == s))

/-- The first file, in discovery order, that reaches the aggregation
loop and contains the identifier — the file whose taxonomy wins. -/
def firstTaxFile (files : List InputFile) (id : String) : Option InputFile :=
  files.find? (fun f => validFull f && (fileIds f).contains id)

/-- The sample names the run registers, in registration order. -/
def registeredNames (files : List InputFile) : List String :=
  (files.filter validAbund).map InputFile.sample_name

/-! Concrete data for the scenario of §8 of the spec and for witnesses:
two fully-valid files `S1`, `S2`, and a file `T1` that has the
identifier and abundance columns but no taxonomy columns. -/

/-- A header carrying every required column. -/
def fullCols : List String :=
  ["Target_ID", "estimated counts", "species", "genus", "family", "order",
   "class", "phylum", "superkingdom"]

/-- Row (OTU1, 5, taxonomy A). -/
def rowA1 : Row := ⟨"OTU1", 5, "spA", "genA", "famA", "ordA", "claA", "phyA", "kinA"⟩

/-- Row (OTU1, 3, taxonomy A). -/
def rowA2 : Row := ⟨"OTU1", 3, "spA", "genA", "famA", "ordA", "claA", "phyA", "kinA"⟩

/-- Row (OTU1, 7, taxonomy B). -/
def rowB : Row := ⟨"OTU1", 7, "spB", "genB", "famB", "ordB", "claB", "phyB", "kinB"⟩

/-- Row (OTU2, 2, taxonomy C). -/
def rowC : Row := ⟨"OTU2", 2, "spC", "genC", "famC", "ordC", "claC", "phyC", "kinC"⟩

/-- File S1.tsv of the spec scenario. -/
def fileS1 : InputFile := ⟨"S1", true, fullCols, [rowA1, rowA2]⟩

/-- File S2.tsv of the spec scenario. -/
def fileS2 : InputFile := ⟨"S2", true, fullCols, [rowB, rowC]⟩

/-- A file that parses and has `Target_ID` and `estimated counts` but
none of the seven taxonomy columns, with the single row (OTU9, 5). -/
def fileNoTax : InputFile :=
  ⟨"T1", true, ["Target_ID", "estimated counts"], [⟨"OTU9", 5, "", "", "", "", "", "", ""⟩]⟩

/-! ## Association-list lemmas -/

theorem lookupD_append_of_none {α : Type} (d e : List (String × α)) (k : String)
    (h : lookupD d k = none) : lookupD (d ++ e) k = lookupD e k := by
  induction d with
  | nil => rfl
  | cons p rest ih =>
    cases hb : p.1 == k with
    | true => simp [lookupD, hb] at h
    | false =>
      simp only [lookupD, hb] at h
      simp only [List.cons_append, lookupD, hb, Bool.false_eq_true, if_false]
      exact ih h

theorem lookupD_append_of_some {α : Type} (d e : List (String × α)) (k : String) (v : α)
    (h : lookupD d k = some v) : lookupD (d ++ e) k = some v := by
  induction d with
  | nil => simp [lookupD] at h
  | cons p rest ih =>
    cases hb : p.1 == k with
    | true =>
      simp only [lookupD, hb, if_true] at h
      simp only [List.cons_append, lookupD, hb, if_true]
      exact h
    | false =>
      simp only [lookupD, hb, Bool.false_eq_true, if_false] at h
      simp only [List.cons_append, lookupD, hb, Bool.false_eq_true, if_false]
      exact ih h

theorem lookupD_eq_none_of_not_any {α : Type} (d : List (String × α)) (k : String)
    (h : d.any (fun p => p.1 == k) = false) : lookupD d k = none := by
  induction d with
  | nil => rfl
  | cons p rest ih =>
    simp only [List.any_cons, Bool.or_eq_false_iff] at h
    simp only [lookupD, h.1, Bool.false_eq_true, if_false]
    exact ih h.2

theorem lookupD_map_update_self {α : Type} (d : List (String × α)) (k : String) (v : α)
    (h : d.any (fun p => p.1 == k) = true) :
    lookupD (d.map (fun p => if p.1 == k then (k, v) else p)) k = some v := by
  induction d with
  | nil => simp at h
  | cons p rest ih =>
    cases hb : p.1 == k with
    | true => simp [lookupD, hb]
    | false =>
      simp only [List.any_cons, hb, Bool.false_or] at h
      simp only [List.map_cons, hb, Bool.false_eq_true, if_false, lookupD]
      exact ih h

theorem lookupD_map_update_ne {α : Type} (d : List (String × α)) (k k' : String) (v : α)
    (h : k' ≠ k) :
    lookupD (d.map (fun p => if p.1 == k then (k, v) else p)) k' = lookupD d k' := by
  have hkk : (k == k') = false := beq_false_of_ne (Ne.symm h)
  induction d with
  | nil => rfl
  | cons p rest ih =>
    cases hb : p.1 == k with
    | true =>
      have hp : p.1 = k := by simpa using hb
      have hpk : (p.1 == k') = false := by rw [hp]; exact hkk
      simp only [List.map_cons, hb, if_true, lookupD, hkk, hpk, Bool.false_eq_true, if_false]
      exact ih
    | false =>
      simp only [List.map_cons, hb, Bool.false_eq_true, if_false, lookupD]
      cases hb' : p.1 == k' with
      | true => simp
      | false => simpa using ih

theorem lookupD_updateD_self {α : Type} (d : List (String × α)) (k : String) (v : α) :
    lookupD (updateD d k v) k = some v := by
  unfold updateD
  cases h : d.any (fun p => p.1 == k) with
  | true => simpa using lookupD_map_update_self d k v h
  | false =>
    simp only [Bool.false_eq_true, if_false]
    rw [lookupD_append_of_none d _ k (lookupD_eq_none_of_not_any d k h)]
    simp [lookupD]

theorem lookupD_updateD_ne {α : Type} (d : List (String × α)) (k k' : String) (v : α)
    (h : k' ≠ k) : lookupD (updateD d k v) k' = lookupD d k' := by
  unfold updateD
  cases hc : d.any (fun p => p.1 == k) with
  | true => simpa using lookupD_map_update_ne d k k' v h
  | false =>
    simp only [Bool.false_eq_true, if_false]
    cases hl : lookupD d k' with
    | some v' => rw [lookupD_append_of_some d _ k' v' hl]
    | none =>
      rw [lookupD_append_of_none d _ k' hl]
      simp [lookupD, beq_false_of_ne (Ne.symm h)]

theorem lookupD_eq_some_of_append_right {α : Type} (d : List (String × α)) (k : String) (v : α)
    (h : lookupD d k = none) : lookupD (d ++ [(k, v)]) k = some v := by
  rw [lookupD_append_of_none d _ k h]
  simp [lookupD]

/-! ## Sorting lemmas -/

theorem mem_insertSorted (a b : String) (l : List String) :
    b ∈ insertSorted a l ↔ b = a ∨ b ∈ l := by
  induction l with
  | nil => simp [insertSorted]
  | cons c rest ih =>
    simp only [insertSorted]
    split
    · simp
    · simp only [List.mem_cons, ih]
      tauto

theorem mem_sortStrings (b : String) (l : List String) :
    b ∈ sortStrings l ↔ b ∈ l := by
  induction l with
  | nil => simp [sortStrings]
  | cons c rest ih => simp [sortStrings, mem_insertSorted, ih]

theorem nodup_insertSorted (a : String) (l : List String) (h : l.Nodup) (ha : a ∉ l) :
    (insertSorted a l).Nodup := by
  induction l with
  | nil => simp [insertSorted]
  | cons c rest ih =>
    simp only [insertSorted]
    split
    · simp_all [mem_insertSorted]
    · simp_all [mem_insertSorted]
      tauto

theorem nodup_sortStrings (l : List String) (h : l.Nodup) : (sortStrings l).Nodup := by
  induction l with
  | nil => simp [sortStrings]
  | cons c rest ih =>
    simp only [sortStrings]
    refine nodup_insertSorted _ _ (ih h.of_cons) ?_
    rw [mem_sortStrings]
    exact h.not_mem

theorem mem_groupKeys (rows : List Row) (id : String) :
    id ∈ groupKeys rows ↔ id ∈ rows.map Row.target_id := by
  rw [groupKeys, mem_sortStrings, List.mem_dedup]

theorem nodup_groupKeys (rows : List Row) : (groupKeys rows).Nodup :=
  nodup_sortStrings _ (List.nodup_dedup _)

theorem groupKeys_contains (rows : List Row) (id : String) :
    ((groupKeys rows).contains id = true) ↔ id ∈ rows.map Row.target_id := by
  rw [List.contains, List.elem_iff, mem_groupKeys]

/-! ## Per-group update lemmas -/

theorem updateForId_sample_names (f : InputFile) (st : AggState) (id : String) :
    (updateForId f st id).sample_names = st.sample_names := by
  simp only [updateForId]
  split <;> rfl

theorem updateForId_otu_self (f : InputFile) (st : AggState) (id : String) :
    lookupD (updateForId f st id).otu_dict id =
      some (updateD ((lookupD st.otu_dict id).getD []) f.sample_name (sumCounts f.rows id)) := by
  simp only [updateForId]
  split <;> simp [lookupD_updateD_self]

theorem updateForId_otu_ne (f : InputFile) (st : AggState) (id id' : String) (h : id' ≠ id) :
    lookupD (updateForId f st id).otu_dict id' = lookupD st.otu_dict id' := by
  simp only [updateForId]
  split <;> simp [lookupD_updateD_ne _ _ _ _ h]

theorem updateForId_tax_some (f : InputFile) (st : AggState) (id id' : String)
    (v : List (String × String)) (h : lookupD st.tax_dict id' = some v) :
    lookupD (updateForId f st id).tax_dict id' = some v := by
  simp only [updateForId]
  split
  · exact lookupD_append_of_some _ _ _ _ h
  · exact h

theorem updateForId_tax_none_ne (f : InputFile) (st : AggState) (id id' : String)
    (h : id' ≠ id) (h2 : lookupD st.tax_dict id' = none) :
    lookupD (updateForId f st id).tax_dict id' = none := by
  simp only [updateForId]
  split
  · rw [lookupD_append_of_none _ _ _ h2]
    simp [lookupD, beq_false_of_ne (Ne.symm h)]
  · exact h2

theorem updateForId_tax_set (f : InputFile) (st : AggState) (id : String)
    (h2 : lookupD st.tax_dict id = none) (hk : (groupKeys f.rows).contains id = true) :
    lookupD (updateForId f st id).tax_dict id = some (taxRecordOf f.rows id) := by
  simp only [updateForId]
  rw [if_pos (by simp [h2]; exact List.elem_iff.mp hk)]
  exact lookupD_eq_some_of_append_right _ _ _ h2

/-! ## Lemmas about the per-file group loop -/

theorem foldl_updateForId_sample_names (f : InputFile) (keys : List String) (st : AggState) :
    (keys.foldl (updateForId f) st).sample_names = st.sample_names := by
  induction keys generalizing st with
  | nil => rfl
  | cons k rest ih => rw [List.foldl_cons, ih, updateForId_sample_names]

theorem foldl_updateForId_otu_not_mem (f : InputFile) (keys : List String) (st : AggState)
    (id : String) (h : id ∉ keys) :
    lookupD (keys.foldl (updateForId f) st).otu_dict id = lookupD st.otu_dict id := by
  induction keys generalizing st with
  | nil => rfl
  | cons k rest ih =>
    have hne : id ≠ k := fun hh => h (hh ▸ List.mem_cons_self k rest)
    rw [List.foldl_cons, ih _ (fun hm => h (List.mem_cons_of_mem _ hm)),
      updateForId_otu_ne f st k id hne]

theorem foldl_updateForId_otu_mem (f : InputFile) (keys : List String) (st : AggState)
    (id : String) (h : id ∈ keys) (hn : keys.Nodup) :
    lookupD (keys.foldl (updateForId f) st).otu_dict id =
      some (updateD ((lookupD st.otu_dict id).getD []) f.sample_name (sumCounts f.rows id)) := by
  induction keys generalizing st with
  | nil => cases h
  | cons k rest ih =>
    rw [List.foldl_cons]
    by_cases hk : id = k
    · subst hk
      have hnot : id ∉ rest := (List.nodup_cons.mp hn).1
      rw [foldl_updateForId_otu_not_mem f rest _ id hnot, updateForId_otu_self]
    · have hmem : id ∈ rest := (List.mem_cons.mp h).resolve_left hk
      rw [ih _ hmem (List.nodup_cons.mp hn).2, updateForId_otu_ne f st k id hk]

theorem foldl_updateForId_tax_some (f : InputFile) (keys : List String) (st : AggState)
    (id : String) (v : List (String × String)) (h : lookupD st.tax_dict id = some v) :
    lookupD (keys.foldl (updateForId f) st).tax_dict id = some v := by
  induction keys generalizing st with
  | nil => exact h
  | cons k rest ih =>
    rw [List.foldl_cons]
    exact ih _ (updateForId_tax_some f st k id v h)

theorem foldl_updateForId_tax_not_mem (f : InputFile) (keys : List String) (st : AggState)
    (id : String) (h : id ∉ keys) (h2 : lookupD st.tax_dict id = none) :
    lookupD (keys.foldl (updateForId f) st).tax_dict id = none := by
  induction keys generalizing st with
  | nil => exact h2
  | cons k rest ih =>
    have hne : id ≠ k := fun hh => h (hh ▸ List.mem_cons_self k rest)
    rw [List.foldl_cons]
    exact ih _ (fun hm => h (List.mem_cons_of_mem _ hm))
      (updateForId_tax_none_ne f st k id hne h2)

theorem foldl_updateForId_tax_mem (f : InputFile) (keys : List String) (st : AggState)
    (id : String) (h : id ∈ keys)
    (hsub : ∀ k ∈ keys, (groupKeys f.rows).contains k = true)
    (h2 : lookupD st.tax_dict id = none) :
    lookupD (keys.foldl (updateForId f) st).tax_dict id = some (taxRecordOf f.rows id) := by
  induction keys generalizing st with
  | nil => cases h
  | cons k rest ih =>
    rw [List.foldl_cons]
    by_cases hk : id = k
    · subst hk
      have hset := updateForId_tax_set f st id h2 (hsub id (List.mem_cons_self id rest))
      exact foldl_updateForId_tax_some f rest _ id _ hset
    · have hmem : id ∈ rest := (List.mem_cons.mp h).resolve_left hk
      exact ih _ hmem (fun x hx => hsub x (List.mem_cons_of_mem _ hx))
        (updateForId_tax_none_ne f st k id hk h2)

/-! ## Per-file lemmas -/

theorem processFile_of_not_validAbund (st : AggState) (f : InputFile)
    (h : validAbund f = false) :
    (processFile st f).otu_dict = st.otu_dict ∧ (processFile st f).tax_dict = st.tax_dict ∧
      (processFile st f).sample_names = st.sample_names := by
  unfold processFile
  cases hp : f.parse_ok with
  | false => simp
  | true =>
    cases h1 : f.columns.contains "Target_ID" with
    | false => simp [hp, h1]
    | true =>
      cases h2 : f.columns.contains "estimated counts" with
      | false => simp [hp, h1, h2]
      | true =>
        exfalso
        rw [validAbund, hp, h1, h2] at h
        simp at h

theorem validAbund_parts (f : InputFile) (h : validAbund f = true) :
    f.parse_ok = true ∧ f.columns.contains "Target_ID" = true ∧
      f.columns.contains "estimated counts" = true := by
  rw [validAbund] at h
  simp only [Bool.and_eq_true] at h
  exact ⟨h.1.1, h.1.2, h.2⟩

theorem validFull_parts (f : InputFile) (h : validFull f = true) :
    validAbund f = true ∧ (missingTax f).isEmpty = true := by
  rw [validFull] at h
  simpa only [Bool.and_eq_true] using h

theorem processFile_of_missingTax (st : AggState) (f : InputFile)
    (hA : validAbund f = true) (hm : (missingTax f).isEmpty = false) :
    processFile st f = { st with sample_names := st.sample_names ++ [f.sample_name],
                                 log := st.log ++ [LogMsg.missingTaxCols f.sample_name] } := by
  obtain ⟨hp, h1, h2⟩ := validAbund_parts f hA
  have m1 : "Target_ID" ∈ f.columns := List.elem_iff.mp h1
  have m2 : "estimated counts" ∈ f.columns := List.elem_iff.mp h2
  unfold processFile
  simp [hp, m1, m2, hm]

theorem processFile_of_validFull (st : AggState) (f : InputFile) (h : validFull f = true) :
    processFile st f = (groupKeys f.rows).foldl (updateForId f)
      { st with sample_names := st.sample_names ++ [f.sample_name] } := by
  obtain ⟨hA, hm⟩ := validFull_parts f h
  obtain ⟨hp, h1, h2⟩ := validAbund_parts f hA
  have m1 : "Target_ID" ∈ f.columns := List.elem_iff.mp h1
  have m2 : "estimated counts" ∈ f.columns := List.elem_iff.mp h2
  unfold processFile
  simp [hp, m1, m2, hm]

theorem processFile_otu_tax_of_not_validFull (st : AggState) (f : InputFile)
    (h : validFull f = false) :
    (processFile st f).otu_dict = st.otu_dict ∧ (processFile st f).tax_dict = st.tax_dict := by
  cases hA : validAbund f with
  | false =>
    obtain ⟨e1, e2, _⟩ := processFile_of_not_validAbund st f hA
    exact ⟨e1, e2⟩
  | true =>
    have hm : (missingTax f).isEmpty = false := by
      rw [validFull, hA] at h
      simpa using h
    rw [processFile_of_missingTax st f hA hm]
    exact ⟨rfl, rfl⟩

theorem processFile_cell_hit (st : AggState) (f : InputFile) (id s : String)
    (hq : (validFull f && (fileIds f).contains id && (f.sample_name == s)) = true) :
    lookupD ((lookupD (processFile st f).otu_dict id).getD []) s =
      some (sumCounts f.rows id) := by
  simp only [Bool.and_eq_true] at hq
  obtain ⟨⟨hv, hks⟩, hns⟩ := hq
  have hs : f.sample_name = s := by simpa using hns
  have hmem : id ∈ groupKeys f.rows := (mem_groupKeys _ _).mpr (List.elem_iff.mp hks)
  rw [processFile_of_validFull st f hv,
    foldl_updateForId_otu_mem f _ _ id hmem (nodup_groupKeys _)]
  simp only [Option.getD_some]
  rw [hs, lookupD_updateD_self]

theorem processFile_cell_miss (st : AggState) (f : InputFile) (id s : String)
    (hq : (validFull f && (fileIds f).contains id && (f.sample_name == s)) = false) :
    lookupD ((lookupD (processFile st f).otu_dict id).getD []) s =
      lookupD ((lookupD st.otu_dict id).getD []) s := by
  cases hv : validFull f with
  | false => rw [(processFile_otu_tax_of_not_validFull st f hv).1]
  | true =>
    rw [processFile_of_validFull st f hv]
    by_cases hid : id ∈ f.rows.map Row.target_id
    · have hks : (fileIds f).contains id = true := List.elem_iff.mpr hid
      have hns : (f.sample_name == s) = false := by
        cases hb : f.sample_name == s with
        | true => rw [hv, hks, hb] at hq; simp at hq
        | false => rfl
      have hne : s ≠ f.sample_name := by
        intro hh
        rw [hh] at hns
        simp at hns
      rw [foldl_updateForId_otu_mem f _ _ id ((mem_groupKeys _ _).mpr hid) (nodup_groupKeys _)]
      simp only [Option.getD_some]
      rw [lookupD_updateD_ne _ _ _ _ hne]
    · rw [foldl_updateForId_otu_not_mem f _ _ id (fun hm => hid ((mem_groupKeys _ _).mp hm))]

theorem processFile_row (st : AggState) (f : InputFile) (id : String) :
    (lookupD (processFile st f).otu_dict id).isSome =
      ((lookupD st.otu_dict id).isSome || (validFull f && (fileIds f).contains id)) := by
  cases hv : validFull f with
  | false =>
    rw [(processFile_otu_tax_of_not_validFull st f hv).1]
    simp
  | true =>
    rw [processFile_of_validFull st f hv]
    by_cases hid : id ∈ f.rows.map Row.target_id
    · rw [foldl_updateForId_otu_mem f _ _ id ((mem_groupKeys _ _).mpr hid) (nodup_groupKeys _)]
      simp
      exact Or.inr hid
    · rw [foldl_updateForId_otu_not_mem f _ _ id (fun hm => hid ((mem_groupKeys _ _).mp hm))]
      simp
      exact fun hm => absurd hm hid

theorem processFile_tax_of_some (st : AggState) (f : InputFile) (id : String)
    (v : List (String × String)) (h : lookupD st.tax_dict id = some v) :
    lookupD (processFile st f).tax_dict id = some v := by
  cases hv : validFull f with
  | false =>
    rw [(processFile_otu_tax_of_not_validFull st f hv).2]
    exact h
  | true =>
    rw [processFile_of_validFull st f hv]
    exact foldl_updateForId_tax_some f _ _ id v h

theorem processFile_tax_hit (st : AggState) (f : InputFile) (id : String)
    (h : lookupD st.tax_dict id = none)
    (hq : (validFull f && (fileIds f).contains id) = true) :
    lookupD (processFile st f).tax_dict id = some (taxRecordOf f.rows id) := by
  simp only [Bool.and_eq_true] at hq
  obtain ⟨hv, hks⟩ := hq
  have hmem : id ∈ groupKeys f.rows := (mem_groupKeys _ _).mpr (List.elem_iff.mp hks)
  rw [processFile_of_validFull st f hv]
  exact foldl_updateForId_tax_mem f _ _ id hmem (fun k hk => List.elem_iff.mpr hk) h

theorem processFile_tax_miss (st : AggState) (f : InputFile) (id : String)
    (h : lookupD st.tax_dict id = none)
    (hq : (validFull f && (fileIds f).contains id) = false) :
    lookupD (processFile st f).tax_dict id = none := by
  cases hv : validFull f with
  | false =>
    rw [(processFile_otu_tax_of_not_validFull st f hv).2]
    exact h
  | true =>
    have hks : (fileIds f).contains id = false := by
      rw [hv] at hq
      simpa using hq
    have hmem : id ∉ groupKeys f.rows := by
      intro hm
      have hmm : (fileIds f).contains id = true := List.elem_iff.mpr ((mem_groupKeys _ _).mp hm)
      rw [hks] at hmm
      cases hmm
    rw [processFile_of_validFull st f hv]
    exact foldl_updateForId_tax_not_mem f _ _ id hmem h

/-! ## Whole-run characterizations -/

theorem foldl_processFile_sample_names (files : List InputFile) (st : AggState) :
    (files.foldl processFile st).sample_names = st.sample_names ++ registeredNames files := by
  induction files generalizing st with
  | nil => simp [registeredNames]
  | cons f rest ih =>
    rw [List.foldl_cons, ih]
    cases hA : validAbund f with
    | false =>
      rw [(processFile_of_not_validAbund st f hA).2.2]
      simp [registeredNames, List.filter_cons, hA]
    | true =>
      cases hm : (missingTax f).isEmpty with
      | false =>
        rw [processFile_of_missingTax st f hA hm]
        simp [registeredNames, List.filter_cons, hA]
      | true =>
        rw [processFile_of_validFull st f (by rw [validFull, hA, hm]; rfl)]
        rw [foldl_updateForId_sample_names]
        simp [registeredNames, List.filter_cons, hA]

theorem foldl_processFile_cell (files : List InputFile) (st : AggState) (id s : String) :
    lookupD ((lookupD (files.foldl processFile st).otu_dict id).getD []) s =
      match (contribs files id s).getLast? with
      | some f => some (sumCounts f.rows id)
      | none => lookupD ((lookupD st.otu_dict id).getD []) s := by
  induction files using List.reverseRecOn with
  | nil => rfl
  | append_singleton l f ih =>
    rw [List.foldl_append, List.foldl_cons, List.foldl_nil]
    have hc : contribs (l ++ [f]) id s = contribs l id s ++ contribs [f] id s :=
      List.filter_append _ _
    by_cases hq : (validFull f && (fileIds f).contains id && (f.sample_name == s)) = true
    · have hone : contribs [f] id s = [f] := by
        rw [contribs, List.filter_cons, if_pos hq]
        rfl
      have he : contribs (l ++ [f]) id s = contribs l id s ++ [f] := by
        rw [hc, hone]
      rw [processFile_cell_hit _ f id s hq, he, List.getLast?_concat]
    · have hqf : (validFull f && (fileIds f).contains id && (f.sample_name == s)) = false :=
        Bool.eq_false_iff.mpr hq
      have hone : contribs [f] id s = [] := by
        rw [contribs, List.filter_cons, if_neg hq]
        rfl
      have he : contribs (l ++ [f]) id s = contribs l id s := by
        rw [hc, hone, List.append_nil]
      rw [processFile_cell_miss _ f id s hqf, ih, he]

theorem foldl_processFile_row (files : List InputFile) (st : AggState) (id : String) :
    (lookupD (files.foldl processFile st).otu_dict id).isSome =
      ((lookupD st.otu_dict id).isSome ||
        files.any (fun f => validFull f && (fileIds f).contains id)) := by
  induction files using List.reverseRecOn with
  | nil => simp
  | append_singleton l f ih =>
    rw [List.foldl_append, List.foldl_cons, List.foldl_nil, processFile_row, ih, List.any_append]
    simp [Bool.or_assoc]

theorem firstTaxFile_cons_pos (f : InputFile) (rest : List InputFile) (id : String)
    (hq : (validFull f && (fileIds f).contains id) = true) :
    firstTaxFile (f :: rest) id = some f := by
  rw [firstTaxFile]
  exact List.find?_cons_of_pos rest hq

theorem firstTaxFile_cons_neg (f : InputFile) (rest : List InputFile) (id : String)
    (hq : ¬(validFull f && (fileIds f).contains id) = true) :
    firstTaxFile (f :: rest) id = firstTaxFile rest id := by
  rw [firstTaxFile, firstTaxFile]
  exact List.find?_cons_of_neg rest hq

theorem foldl_processFile_tax (files : List InputFile) (st : AggState) (id : String) :
    lookupD (files.foldl processFile st).tax_dict id =
      match lookupD st.tax_dict id with
      | some v => some v
      | none => (firstTaxFile files id).map (fun f => taxRecordOf f.rows id) := by
  induction files generalizing st with
  | nil => cases h : lookupD st.tax_dict id <;> simp [h, firstTaxFile]
  | cons f rest ih =>
    rw [List.foldl_cons, ih]
    cases h : lookupD st.tax_dict id with
    | some v => rw [processFile_tax_of_some st f id v h]
    | none =>
      by_cases hq : (validFull f && (fileIds f).contains id) = true
      · rw [processFile_tax_hit st f id h hq, firstTaxFile_cons_pos f rest id hq]
        rfl
      · have hqf : (validFull f && (fileIds f).contains id) = false := Bool.eq_false_iff.mpr hq
        rw [processFile_tax_miss st f id h hqf, firstTaxFile_cons_neg f rest id hq]

/-! ## Characterizations of the finished aggregation -/

theorem aggregate_sample_names (files : List InputFile) :
    (aggregate files).sample_names = registeredNames files := by
  rw [aggregate, foldl_processFile_sample_names]
  rfl

theorem aggregate_cell (files : List InputFile) (id s : String) :
    lookupD ((lookupD (aggregate files).otu_dict id).getD []) s =
      ((contribs files id s).getLast?).map (fun f => sumCounts f.rows id) := by
  rw [aggregate, foldl_processFile_cell]
  cases h : (contribs files id s).getLast? <;> simp [initState, lookupD]

theorem aggregate_row (files : List InputFile) (id : String) :
    (lookupD (aggregate files).otu_dict id).isSome =
      files.any (fun f => validFull f && (fileIds f).contains id) := by
  rw [aggregate, foldl_processFile_row]
  simp [initState, lookupD]

theorem aggregate_tax (files : List InputFile) (id : String) :
    lookupD (aggregate files).tax_dict id =
      (firstTaxFile files id).map (fun f => taxRecordOf f.rows id) := by
  rw [aggregate, foldl_processFile_tax]
  simp [initState, lookupD]

/-! ## Finalized-table lemmas -/

theorem lookupD_map {α β : Type} (d : List (String × α)) (g : α → β) (k : String) :
    lookupD (d.map (fun p => (p.1, g p.2))) k = (lookupD d k).map g := by
  induction d with
  | nil => rfl
  | cons p rest ih =>
    cases hb : p.1 == k with
    | true => simp [lookupD, hb]
    | false =>
      simp only [List.map_cons, lookupD, hb, Bool.false_eq_true, if_false]
      exact ih

theorem lookupD_sample_map (names : List String) (g : String → Int) (s : String)
    (hs : s ∈ names) :
    lookupD (names.map (fun x => (x, g x))) s = some (g s) := by
  induction names with
  | nil => cases hs
  | cons n rest ih =>
    cases hb : n == s with
    | true =>
      have hn : n = s := by simpa using hb
      subst hn
      simp [lookupD]
    | false =>
      have hne : n ≠ s := by simpa using hb
      have hmem : s ∈ rest := (List.mem_cons.mp hs).resolve_left (fun hh => hne hh.symm)
      simp only [List.map_cons, lookupD, hb, Bool.false_eq_true, if_false]
      exact ih hmem

theorem lookupD_otuTable (st : AggState) (id : String) :
    lookupD (otuTable st) id = (lookupD st.otu_dict id).map
      (fun inner => st.sample_names.map (fun s => (s, (lookupD inner s).getD 0))) := by
  rw [otuTable]
  exact lookupD_map st.otu_dict
    (fun inner => st.sample_names.map (fun s => (s, (lookupD inner s).getD 0))) id

theorem tableCell_otuTable (st : AggState) (id s : String)
    (hrow : (lookupD st.otu_dict id).isSome = true) (hs : s ∈ st.sample_names) :
    tableCell (otuTable st) id s =
      some ((lookupD ((lookupD st.otu_dict id).getD []) s).getD 0) := by
  obtain ⟨inner, hinner⟩ := Option.isSome_iff_exists.mp hrow
  rw [tableCell, lookupD_otuTable, hinner]
  simp only [Option.map_some', Option.some_bind]
  rw [lookupD_sample_map st.sample_names _ s hs]
  simp

theorem tableCell_otuTable_none (st : AggState) (id s : String)
    (hrow : lookupD st.otu_dict id = none) :
    tableCell (otuTable st) id s = none := by
  rw [tableCell, lookupD_otuTable, hrow]
  rfl

/-! ## Uniqueness of a sample's contribution under distinct names -/

theorem filter_length_le_one (l : List InputFile) (p : InputFile → Bool) (s : String)
    (himp : ∀ g, p g = true → validAbund g = true ∧ g.sample_name = s)
    (hn : ((l.filter validAbund).map InputFile.sample_name).Nodup) :
    (l.filter p).length ≤ 1 := by
  induction l with
  | nil => simp
  | cons h t ih =>
    cases hA : validAbund h with
    | false =>
      have hph : p h = false := by
        cases hb : p h with
        | false => rfl
        | true =>
          rw [(himp h hb).1] at hA
          cases hA
      have hn' : ((t.filter validAbund).map InputFile.sample_name).Nodup := by
        rw [List.filter_cons, if_neg (by simp [hA])] at hn
        exact hn
      rw [List.filter_cons, if_neg (by simp [hph])]
      exact ih hn'
    | true =>
      have hn2 : ((t.filter validAbund).map InputFile.sample_name).Nodup ∧
          h.sample_name ∉ (t.filter validAbund).map InputFile.sample_name := by
        rw [List.filter_cons, if_pos (by simp [hA]), List.map_cons, List.nodup_cons] at hn
        exact ⟨hn.2, hn.1⟩
      cases hb : p h with
      | false =>
        rw [List.filter_cons, if_neg (by simp [hb])]
        exact ih hn2.1
      | true =>
        have hs : h.sample_name = s := (himp h hb).2
        have hempty : t.filter p = [] := by
          rw [List.filter_eq_nil_iff]
          intro g hg hpg
          have hgA := himp g hpg
          have hmm : g.sample_name ∈ (t.filter validAbund).map InputFile.sample_name :=
            List.mem_map_of_mem _ (List.mem_filter.mpr ⟨hg, hgA.1⟩)
          rw [hgA.2, ← hs] at hmm
          exact hn2.2 hmm
        rw [List.filter_cons, if_pos (by simp [hb]), hempty]
        simp

theorem eq_singleton_of_length_le_one {α : Type} (l : List α) (a : α)
    (hl : l.length ≤ 1) (ha : a ∈ l) : l = [a] := by
  match l with
  | [] => cases ha
  | [x] =>
    have hax : a = x := by simpa using ha
    rw [hax]
  | x :: y :: rest =>
    simp only [List.length_cons] at hl
    omega

theorem contribs_eq_singleton (files : List InputFile) (f : InputFile) (id : String)
    (hf : f ∈ files) (hv : validFull f = true) (hid : id ∈ fileIds f)
    (hn : (registeredNames files).Nodup) :
    contribs files id f.sample_name = [f] := by
  have hmem : f ∈ contribs files id f.sample_name := by
    rw [contribs, List.mem_filter]
    refine ⟨hf, ?_⟩
    have hcont : (fileIds f).contains id = true := List.elem_iff.mpr hid
    rw [hv, hcont]
    simp
  have himp : ∀ g, (validFull g && (fileIds g).contains id &&
      (g.sample_name == f.sample_name)) = true →
      validAbund g = true ∧ g.sample_name = f.sample_name := by
    intro g hg
    simp only [Bool.and_eq_true, beq_iff_eq] at hg
    exact ⟨(validFull_parts g hg.1.1).1, hg.2⟩
  have hlen := filter_length_le_one files _ f.sample_name himp hn
  exact eq_singleton_of_length_le_one _ f hlen hmem

theorem same_name_unique (files : List InputFile) (f g : InputFile)
    (hf : f ∈ files) (hg : g ∈ files)
    (hAf : validAbund f = true) (hAg : validAbund g = true)
    (hname : g.sample_name = f.sample_name)
    (hn : (registeredNames files).Nodup) : g = f := by
  have himp : ∀ x, (validAbund x && (x.sample_name == f.sample_name)) = true →
      validAbund x = true ∧ x.sample_name = f.sample_name := by
    intro x hx
    simpa only [Bool.and_eq_true, beq_iff_eq] using hx
  have hlen := filter_length_le_one files _ f.sample_name himp hn
  have hfm : f ∈ files.filter (fun x => validAbund x && (x.sample_name == f.sample_name)) :=
    List.mem_filter.mpr ⟨hf, by rw [hAf]; simp⟩
  have hgm : g ∈ files.filter (fun x => validAbund x && (x.sample_name == f.sample_name)) :=
    List.mem_filter.mpr ⟨hg, by rw [hAg, hname]; simp⟩
  have hsingle := eq_singleton_of_length_le_one _ f hlen hfm
  rw [hsingle] at hgm
  simpa using hgm

/-! ## The claims -/

/-- Claim C1: for every input file that passes validation (all the
script's per-file checks — readable, `Target_ID` and `estimated counts`
present, and, because the script's `continue` on missing taxonomy
columns skips the abundance loop as well, all seven taxonomy columns
present) and for every identifier occurring in that file, the abundance
table stores at [identifier][that file's sample name] exactly the sum
of the abundance values of all rows of that file sharing the
identifier; sums are never combined across files — with the registered
sample names pairwise distinct, that file alone determines its column's
value for the identifier. -/
theorem claim1_abundance_grouping (files : List InputFile) (f : InputFile)
    (hf : f ∈ files) (hv : validFull f = true)
    (hn : (registeredNames files).Nodup)
    (id : String) (hid : id ∈ fileIds f) :
    tableCell (otuTable (aggregate files)) id f.sample_name =
      some (sumCounts f.rows id) := by
  have hsingle := contribs_eq_singleton files f id hf hv hid hn
  have hcell := aggregate_cell files id f.sample_name
  rw [hsingle] at hcell
  have hlast : ([f] : List InputFile).getLast? = some f := rfl
  rw [hlast] at hcell
  simp only [Option.map_some'] at hcell
  have hcont : (fileIds f).contains id = true := List.elem_iff.mpr hid
  have hrow : (lookupD (aggregate files).otu_dict id).isSome = true := by
    rw [aggregate_row, List.any_eq_true]
    refine ⟨f, hf, ?_⟩
    rw [hv, hcont]
    rfl
  have hs : f.sample_name ∈ (aggregate files).sample_names := by
    rw [aggregate_sample_names, registeredNames]
    exact List.mem_map_of_mem _ (List.mem_filter.mpr ⟨hf, (validFull_parts f hv).1⟩)
  rw [tableCell_otuTable _ _ _ hrow hs, hcell]
  rfl

/-- Witness for C1 at the concrete two-file scenario. -/
theorem claim1_abundance_grouping_witness :
    fileS1 ∈ [fileS1, fileS2] ∧ validFull fileS1 = true ∧
      (registeredNames [fileS1, fileS2]).Nodup ∧ "OTU1" ∈ fileIds fileS1 ∧
      tableCell (otuTable (aggregate [fileS1, fileS2])) "OTU1" fileS1.sample_name =
        some (sumCounts fileS1.rows "OTU1") :=
  ⟨by decide, by decide, by decide, by decide,
    claim1_abundance_grouping [fileS1, fileS2] fileS1 (by decide) (by decide) (by decide)
      "OTU1" (by decide)⟩

/-- Claim C2, code behaviour at the failing input: a file that parses
and has the identifier and abundance columns but misses the taxonomy
columns logs the warning and registers its sample name — but, contrary
to the claim (and to the script's own log message "Skipping taxonomy
info for this file"), it contributes NO abundance data: the `continue`
skips the abundance loop too, so after processing `fileNoTax` the
`otu_dict` is empty and identifier OTU9 has no abundance cell at all. -/
theorem claim2_code_behaviour :
    validAbund fileNoTax = true ∧ (missingTax fileNoTax).isEmpty = false ∧
      (aggregate [fileNoTax]).log = [LogMsg.missingTaxCols "T1"] ∧
      (aggregate [fileNoTax]).sample_names = ["T1"] ∧
      (aggregate [fileNoTax]).otu_dict = [] ∧
      tableCell (otuTable (aggregate [fileNoTax])) "OTU9" "T1" = none := by
  decide

/-- Claim C3: an identifier's taxonomy-table entry equals the renamed
seven rank values of the first-encountered row (`taxRecordOf` reads the
first row of the file, in file order, with that identifier) of the
first file in discovery order that reached the aggregation loop —
i.e. supplied complete taxonomy columns — and contains the identifier
(`firstTaxFile`); later files' taxonomy is discarded, and files without
complete taxonomy never block, so a later complete file does populate an
identifier earlier incomplete files mentioned. -/
theorem claim3_taxonomy_first_file_wins (files : List InputFile) (id : String) :
    lookupD (taxTable (aggregate files)) id =
      (firstTaxFile files id).map (fun f => taxRecordOf f.rows id) := by
  rw [taxTable]
  exact aggregate_tax files id

/-- Claim C4: a sample name is a column of the abundance table (the
finalized table's columns are exactly the registered sample names) iff
some input file with that name parsed and had both the `Target_ID` and
`estimated counts` columns, regardless of taxonomy columns; and a file
failing one of those checks changes neither dictionary nor the
registered names — it contributes nothing. -/
theorem claim4_column_iff_validAbund (files : List InputFile) (s : String) :
    (s ∈ (aggregate files).sample_names ↔
      ∃ f ∈ files, validAbund f = true ∧ f.sample_name = s) ∧
    (∀ (st : AggState) (f : InputFile), validAbund f = false →
      (processFile st f).otu_dict = st.otu_dict ∧
      (processFile st f).tax_dict = st.tax_dict ∧
      (processFile st f).sample_names = st.sample_names) := by
  constructor
  · rw [aggregate_sample_names, registeredNames]
    constructor
    · intro hs
      obtain ⟨f, hf, hfs⟩ := List.mem_map.mp hs
      obtain ⟨hmem, hA⟩ := List.mem_filter.mp hf
      exact ⟨f, hmem, hA, hfs⟩
    · rintro ⟨f, hf, hA, rfl⟩
      exact List.mem_map_of_mem _ (List.mem_filter.mpr ⟨hf, hA⟩)
  · exact fun st f h => processFile_of_not_validAbund st f h

/-- Claim C5: the finalized abundance table is a dense grid — for every
identifier present as a row and every registered sample name, the cell
exists; and it equals 0 whenever no file wrote to it (no fully-valid
file with that sample name contains the identifier). -/
theorem claim5_dense_grid (files : List InputFile) (id s : String)
    (hrow : (lookupD (otuTable (aggregate files)) id).isSome = true)
    (hs : s ∈ (aggregate files).sample_names) :
    ∃ v : Int, tableCell (otuTable (aggregate files)) id s = some v ∧
      (contribs files id s = [] → v = 0) := by
  have hrow2 : (lookupD (aggregate files).otu_dict id).isSome = true := by
    rw [lookupD_otuTable] at hrow
    simpa using hrow
  rw [tableCell_otuTable _ _ _ hrow2 hs]
  refine ⟨_, rfl, ?_⟩
  intro hc
  rw [aggregate_cell, hc]
  rfl

/-- Witness for C5: the (OTU2, S1) cell of the scenario exists and is
zero filled. -/
theorem claim5_dense_grid_witness :
    (lookupD (otuTable (aggregate [fileS1, fileS2])) "OTU2").isSome = true ∧
      "S1" ∈ (aggregate [fileS1, fileS2]).sample_names ∧
      ∃ v : Int, tableCell (otuTable (aggregate [fileS1, fileS2])) "OTU2" "S1" = some v ∧
        (contribs [fileS1, fileS2] "OTU2" "S1" = [] → v = 0) :=
  ⟨by decide, by decide, claim5_dense_grid [fileS1, fileS2] "OTU2" "S1" (by decide) (by decide)⟩

/-- Claim C6: every identifier with a taxonomy-table row also has an
abundance-table row. -/
theorem claim6_tax_subset_otu (files : List InputFile) (id : String)
    (h : (lookupD (taxTable (aggregate files)) id).isSome = true) :
    (lookupD (otuTable (aggregate files)) id).isSome = true := by
  rw [taxTable, aggregate_tax] at h
  obtain ⟨f, hfind⟩ : ∃ f, firstTaxFile files id = some f := by
    cases hb : firstTaxFile files id with
    | some f => exact ⟨f, rfl⟩
    | none =>
      rw [hb] at h
      simp at h
  rw [firstTaxFile] at hfind
  have hp := List.find?_some hfind
  rw [lookupD_otuTable, Option.isSome_map', aggregate_row, List.any_eq_true]
  exact ⟨f, List.mem_of_find?_eq_some hfind, hp⟩

/-- Witness for C6 at the concrete scenario. -/
theorem claim6_tax_subset_otu_witness :
    (lookupD (taxTable (aggregate [fileS1, fileS2])) "OTU1").isSome = true ∧
      (lookupD (otuTable (aggregate [fileS1, fileS2])) "OTU1").isSome = true :=
  ⟨by decide, claim6_tax_subset_otu [fileS1, fileS2] "OTU1" (by decide)⟩

/-- Claim C7: with zero matched files the run takes the "No files
found" early return and writes nothing; with at least one matched file
it writes both finalized tables (even when individual files were
skipped). -/
theorem claim7_no_files_abort (files : List InputFile) :
    (files = [] → run files = RunResult.noFiles) ∧
    (files ≠ [] → run files =
      RunResult.written (otuTable (aggregate files)) (taxTable (aggregate files))) := by
  constructor
  · intro h
    rw [h]
    rfl
  · intro h
    rw [run, if_neg (by simpa using h)]

/-- Claim C8: the spec's two-file scenario produces exactly the expected
tables — abundance OTU1→{S1:8, S2:7}, OTU2→{S1:0, S2:2}; taxonomy
OTU1→taxonomy A (first file wins over S2's B), OTU2→taxonomy C. -/
theorem claim8_two_file_scenario :
    tableCell (otuTable (aggregate [fileS1, fileS2])) "OTU1" "S1" = some 8 ∧
    tableCell (otuTable (aggregate [fileS1, fileS2])) "OTU1" "S2" = some 7 ∧
    tableCell (otuTable (aggregate [fileS1, fileS2])) "OTU2" "S1" = some 0 ∧
    tableCell (otuTable (aggregate [fileS1, fileS2])) "OTU2" "S2" = some 2 ∧
    lookupD (taxTable (aggregate [fileS1, fileS2])) "OTU1" =
      some [("Kingdom", "kinA"), ("Phylum", "phyA"), ("Class", "claA"), ("Order", "ordA"),
            ("Family", "famA"), ("Genus", "genA"), ("Species", "spA")] ∧
    lookupD (taxTable (aggregate [fileS1, fileS2])) "OTU2" =
      some [("Kingdom", "kinC"), ("Phylum", "phyC"), ("Class", "claC"), ("Order", "ordC"),
            ("Family", "famC"), ("Genus", "genC"), ("Species", "spC")] := by
  decide

/-- Claim C9: every taxonomy-table row carries exactly the seven output
rank columns in the fixed order Kingdom, Phylum, Class, Order, Family,
Genus, Species, and each output column takes its value from the
corresponding input column (per `desired_columns`, superkingdom→Kingdom
the only renaming) of the first-encountered row with that identifier in
the file whose taxonomy won (`firstTaxFile`): the record equals that row
read through the `desired_columns` mapping, spelled out column by
column. -/
theorem claim9_tax_columns (files : List InputFile) (id : String)
    (rec : List (String × String))
    (h : lookupD (taxTable (aggregate files)) id = some rec) :
    rec.map Prod.fst = ["Kingdom", "Phylum", "Class", "Order", "Family", "Genus", "Species"] ∧
    ∃ f r, firstTaxFile files id = some f ∧
      f.rows.find? (fun x => x.target_id == id) = some r ∧
      rec = desired_columns.map (fun p => (p.1, rankValue r p.2)) ∧
      rec = [("Kingdom", r.superkingdom), ("Phylum", r.phylum), ("Class", r.«class»),
        ("Order", r.order), ("Family", r.family), ("Genus", r.genus),
        ("Species", r.species)] := by
  rw [taxTable, aggregate_tax] at h
  obtain ⟨f, hfind, hrec⟩ :
      ∃ f, firstTaxFile files id = some f ∧ rec = taxRecordOf f.rows id := by
    cases hb : firstTaxFile files id with
    | none =>
      rw [hb] at h
      cases h
    | some f =>
      rw [hb] at h
      exact ⟨f, rfl, by simpa using h.symm⟩
  have hfind2 := hfind
  rw [firstTaxFile] at hfind2
  have hp := List.find?_some hfind2
  simp only [Bool.and_eq_true] at hp
  have hid : id ∈ f.rows.map Row.target_id := List.elem_iff.mp hp.2
  obtain ⟨r, hrmem, hrid⟩ := List.mem_map.mp hid
  obtain ⟨r2, hr2⟩ : ∃ r2, f.rows.find? (fun x => x.target_id == id) = some r2 := by
    have hsome : (f.rows.find? (fun x => x.target_id == id)).isSome = true := by
      rw [List.find?_isSome]
      exact ⟨r, hrmem, by rw [hrid]; simp⟩
    exact Option.isSome_iff_exists.mp hsome
  have hrec2 : rec = desired_columns.map (fun p => (p.1, rankValue r2 p.2)) := by
    rw [hrec, taxRecordOf, hr2]
  refine ⟨?_, f, r2, hfind, hr2, hrec2, ?_⟩
  · rw [hrec2]
    rfl
  · rw [hrec2]
    rfl

/-- Witness for C9: the OTU1 row of the scenario, traced to the first
row of `fileS1`. -/
theorem claim9_tax_columns_witness :
    lookupD (taxTable (aggregate [fileS1, fileS2])) "OTU1" =
      some [("Kingdom", "kinA"), ("Phylum", "phyA"), ("Class", "claA"), ("Order", "ordA"),
        ("Family", "famA"), ("Genus", "genA"), ("Species", "spA")] ∧
    (([("Kingdom", "kinA"), ("Phylum", "phyA"), ("Class", "claA"), ("Order", "ordA"),
        ("Family", "famA"), ("Genus", "genA"), ("Species", "spA")].map Prod.fst =
      ["Kingdom", "Phylum", "Class", "Order", "Family", "Genus", "Species"]) ∧
    ∃ f r, firstTaxFile [fileS1, fileS2] "OTU1" = some f ∧
      f.rows.find? (fun x => x.target_id == "OTU1") = some r ∧
      [("Kingdom", "kinA"), ("Phylum", "phyA"), ("Class", "claA"), ("Order", "ordA"),
        ("Family", "famA"), ("Genus", "genA"), ("Species", "spA")] =
        desired_columns.map (fun p => (p.1, rankValue r p.2)) ∧
      [("Kingdom", "kinA"), ("Phylum", "phyA"), ("Class", "claA"), ("Order", "ordA"),
        ("Family", "famA"), ("Genus", "genA"), ("Species", "spA")] =
        [("Kingdom", r.superkingdom), ("Phylum", r.phylum), ("Class", r.«class»),
          ("Order", r.order), ("Family", r.family), ("Genus", r.genus),
          ("Species", r.species)]) :=
  ⟨by decide,
    claim9_tax_columns [fileS1, fileS2] "OTU1"
      [("Kingdom", "kinA"), ("Phylum", "phyA"), ("Class", "claA"), ("Order", "ordA"),
        ("Family", "famA"), ("Genus", "genA"), ("Species", "spA")] (by decide)⟩

/-- Claim C10: a parsed file with the identifier and abundance columns
but at least one missing taxonomy column still registers its sample
name as a column, that column is all zeros in the final dense table
(under pairwise-distinct registered sample names), and an identifier
occurring only in such files is a row of neither output table. -/
theorem claim10_missing_tax_all_zero (files : List InputFile) (f : InputFile)
    (hf : f ∈ files) (hA : validAbund f = true) (hm : (missingTax f).isEmpty = false)
    (hn : (registeredNames files).Nodup) :
    f.sample_name ∈ (aggregate files).sample_names ∧
    (∀ id, (lookupD (otuTable (aggregate files)) id).isSome = true →
      tableCell (otuTable (aggregate files)) id f.sample_name = some 0) ∧
    (∀ id, (∀ g ∈ files, id ∈ fileIds g →
        validAbund g = true ∧ (missingTax g).isEmpty = false) →
      lookupD (otuTable (aggregate files)) id = none ∧
      lookupD (taxTable (aggregate files)) id = none) := by
  refine ⟨?_, ?_, ?_⟩
  · rw [aggregate_sample_names, registeredNames]
    exact List.mem_map_of_mem _ (List.mem_filter.mpr ⟨hf, hA⟩)
  · intro id hrow
    have hrow2 : (lookupD (aggregate files).otu_dict id).isSome = true := by
      rw [lookupD_otuTable] at hrow
      simpa using hrow
    have hs : f.sample_name ∈ (aggregate files).sample_names := by
      rw [aggregate_sample_names, registeredNames]
      exact List.mem_map_of_mem _ (List.mem_filter.mpr ⟨hf, hA⟩)
    have hcontribs : contribs files id f.sample_name = [] := by
      rw [contribs, List.filter_eq_nil_iff]
      intro g hg hpg
      simp only [Bool.and_eq_true, beq_iff_eq] at hpg
      obtain ⟨⟨hvg, _⟩, hng⟩ := hpg
      have hAg := (validFull_parts g hvg).1
      have hgf : g = f := same_name_unique files f g hf hg hA hAg hng hn
      rw [hgf, validFull, hA, hm] at hvg
      cases hvg
    rw [tableCell_otuTable _ _ _ hrow2 hs, aggregate_cell, hcontribs]
    rfl
  · intro id honly
    have hnone : ∀ g ∈ files, ¬((validFull g && (fileIds g).contains id) = true) := by
      intro g hg hq
      simp only [Bool.and_eq_true] at hq
      obtain ⟨hvg, hcg⟩ := hq
      obtain ⟨hAg, hmg⟩ := honly g hg (List.elem_iff.mp hcg)
      rw [validFull, hAg, hmg] at hvg
      cases hvg
    have hany : files.any (fun g => validFull g && (fileIds g).contains id) = false := by
      cases hb : files.any (fun g => validFull g && (fileIds g).contains id) with
      | false => rfl
      | true =>
        obtain ⟨g, hg, hq⟩ := List.any_eq_true.mp hb
        exact absurd hq (hnone g hg)
    constructor
    · rw [lookupD_otuTable]
      have : lookupD (aggregate files).otu_dict id = none := by
        cases hb : lookupD (aggregate files).otu_dict id with
        | none => rfl
        | some v =>
          have hsome : (lookupD (aggregate files).otu_dict id).isSome = true := by
            rw [hb]
            rfl
          rw [aggregate_row, hany] at hsome
          cases hsome
      rw [this]
      rfl
    · rw [taxTable, aggregate_tax]
      have : firstTaxFile files id = none := by
        rw [firstTaxFile, List.find?_eq_none]
        exact hnone
      rw [this]
      rfl

/-- Witness for C10: `fileNoTax` next to the fully-valid `fileS1`. -/
theorem claim10_missing_tax_all_zero_witness :
    fileNoTax ∈ [fileNoTax, fileS1] ∧ validAbund fileNoTax = true ∧
      (missingTax fileNoTax).isEmpty = false ∧
      (registeredNames [fileNoTax, fileS1]).Nodup ∧
      (fileNoTax.sample_name ∈ (aggregate [fileNoTax, fileS1]).sample_names ∧
        (∀ id, (lookupD (otuTable (aggregate [fileNoTax, fileS1])) id).isSome = true →
          tableCell (otuTable (aggregate [fileNoTax, fileS1])) id fileNoTax.sample_name =
            some 0) ∧
        (∀ id, (∀ g ∈ [fileNoTax, fileS1], id ∈ fileIds g →
            validAbund g = true ∧ (missingTax g).isEmpty = false) →
          lookupD (otuTable (aggregate [fileNoTax, fileS1])) id = none ∧
          lookupD (taxTable (aggregate [fileNoTax, fileS1])) id = none)) :=
  ⟨by decide, by decide, by decide, by decide,
    claim10_missing_tax_all_zero [fileNoTax, fileS1] fileNoTax (by decide) (by decide)
      (by decide) (by decide)⟩

end Phyloseq
